import Mathlib

/-!
# Verification of `src/06-objects-tasks.js`

Shallow embedding of the repository's CSS selector builder
(`cssSelectorBuilder`) and of the JSON helpers (`getJSON`, `fromJSON`),
together with proofs and refutations of the frozen specification claims.

The builder in the source is a single shared mutable object.  Its mutable
fields are `idCheck`, `pseudoElementCheck`, `order`, `combo` and `build`
(the `weight` field is a constant array).  Every method mutates this one
object and returns `this`, so the whole program is a state machine over
those five fields; we embed it as explicit state passing.  A method either
returns normally (the updated state) or throws an `Error` after calling
`clear()`; we embed this as an `Outcome` carrying the message and the
post-throw state.
-/

namespace ObjectsTasks

/-- The mutable fields of the `cssSelectorBuilder` singleton.
`order` records the rank (index into `weight`) of each accepted fragment,
`combo` is the stack of stashed pending segments, `build` the list of
rendered fragment texts of the selector under construction. -/
structure BuilderState where
  idCheck : Bool
  pseudoElementCheck : Bool
  order : List Nat
  combo : List String
  build : List String
deriving Repr, DecidableEq

/-- The constant `weight` array of the source (note the trailing space in
the source's `'id '` literal, kept verbatim). -/
def weight : List String :=
  ["element", "id ", "class", "attribute", "pseudo-class", "pseudo-element"]

/-- The initial (empty) builder state: the field initialisers of the
`cssSelectorBuilder` object literal. -/
def initState : BuilderState :=
  { idCheck := false, pseudoElementCheck := false
    order := [], combo := [], build := [] }

/-- Result of a builder method: normal return with the new state, or a
thrown `Error` with its message and the state left behind by the throw. -/
inductive Outcome where
  | ok (s : BuilderState)
  | err (msg : String) (s : BuilderState)
deriving Repr, DecidableEq

/-- `clear()`: resets all five mutable fields. -/
def clear (_ : BuilderState) : BuilderState := initState

/-- `error(msg)`: clears the state, then throws `new Error(msg)`. -/
def error (msg : String) (s : BuilderState) : Outcome :=
  .err msg (clear s)

/-- The message of the duplicate-fragment error, verbatim from the source
(including its misspelling of "more than"). -/
def dupMsg : String :=
  "Element, id and pseudo-element should not occur more then one time inside the selector"

/-- The message of the ordering error, verbatim from the source. -/
def orderMsg : String :=
  "Selector parts should be arranged in the following order: element, id, class, attribute, pseudo-class, pseudo-element"

/-- `inOrder(el)`: looks up the rank of `el` in `weight`; if the last
recorded rank is strictly greater, errors, else records the rank.  In JS an
empty `order` yields `undefined > pos`, which is `false`, so the rank is
recorded. -/
def inOrder (el : String) (s : BuilderState) : Outcome :=
  match s.order.getLast? with
  | some last => if last > weight.indexOf el then error orderMsg s
                 else .ok { s with order := s.order ++ [weight.indexOf el] }
  | none => .ok { s with order := s.order ++ [weight.indexOf el] }

/-- `element(value)`: if fragments are present, either errors (exactly one
fragment) or stashes the joined fragments onto `combo` and resets the
per-selector fields; then records rank `weight[0]` and appends the raw
value. -/
def element (value : String) (s : BuilderState) : Outcome :=
  if s.build.length > 0 then
    if s.build.length < 2 then error dupMsg s
    else
      let s1 : BuilderState :=
        { s with combo := s.combo ++ [String.join s.build], build := []
                 idCheck := false, pseudoElementCheck := false, order := [] }
      match inOrder (weight.getD 0 "") s1 with
      | .ok s2 => .ok { s2 with build := s2.build ++ [value] }
      | e => e
  else
    match inOrder (weight.getD 0 "") s with
    | .ok s2 => .ok { s2 with build := s2.build ++ [value] }
    | e => e

/-- `id(value)`: errors if an id fragment was already used, else sets the
flag, records rank `weight[1]` and appends `#value`. -/
def id (value : String) (s : BuilderState) : Outcome :=
  if s.idCheck then error dupMsg s
  else
    match inOrder (weight.getD 1 "") { s with idCheck := true } with
    | .ok s2 => .ok { s2 with build := s2.build ++ ["#" ++ value] }
    | e => e

/-- `class(value)` of the source (renamed: `class` is a Lean keyword):
records rank `weight[2]` and appends `.value`. -/
def className (value : String) (s : BuilderState) : Outcome :=
  match inOrder (weight.getD 2 "") s with
  | .ok s2 => .ok { s2 with build := s2.build ++ ["." ++ value] }
  | e => e

/-- `attr(value)`: records rank `weight[3]` and appends `[value]`. -/
def attr (value : String) (s : BuilderState) : Outcome :=
  match inOrder (weight.getD 3 "") s with
  | .ok s2 => .ok { s2 with build := s2.build ++ ["[" ++ value ++ "]"] }
  | e => e

/-- `pseudoClass(value)`: records rank `weight[4]` and appends `:value`. -/
def pseudoClass (value : String) (s : BuilderState) : Outcome :=
  match inOrder (weight.getD 4 "") s with
  | .ok s2 => .ok { s2 with build := s2.build ++ [":" ++ value] }
  | e => e

/-- `pseudoElement(value)`: errors if a pseudo-element fragment was already
used, else sets the flag, records rank `weight[5]` and appends `::value`. -/
def pseudoElement (value : String) (s : BuilderState) : Outcome :=
  if s.pseudoElementCheck then error dupMsg s
  else
    match inOrder (weight.getD 5 "") { s with pseudoElementCheck := true } with
    | .ok s2 => .ok { s2 with build := s2.build ++ ["::" ++ value] }
    | e => e

/-- `stringify()`: joins the fragment texts with no separator, clears the
state and returns the string; never throws. -/
def stringify (s : BuilderState) : String × BuilderState :=
  (String.join s.build, clear s)

/-- `combine(selector1, combinator, selector2)`.  In the source every
method returns `this` and the builder is a singleton, so `selector1`,
`selector2` and `this` all alias the same object; we embed that aliased
state.  `selector2.combo.pop()` removes the top stashed segment (yielding
the JS `undefined`, rendered as the string "undefined" by the template
literal, when the stack is empty); `selector1.build` is joined and `build`
is replaced with the single combined string.  No path throws. -/
def combine (combinator : String) (s : BuilderState) : Outcome :=
  .ok { s with
        combo := s.combo.dropLast
        build := [(s.combo.getLast?.getD "undefined") ++ " " ++ combinator
                    ++ " " ++ String.join s.build] }

/-- The six fragment-appending methods, as data, for claims that quantify
over "any fragment-adding operation". -/
inductive Call where
  | element (v : String)
  | id (v : String)
  | className (v : String)
  | attr (v : String)
  | pseudoClass (v : String)
  | pseudoElement (v : String)
deriving Repr, DecidableEq

/-- Dispatch a fragment-appending call on a state. -/
def step : Call → BuilderState → Outcome
  | .element v, s => element v s
  | .id v, s => id v s
  | .className v, s => className v s
  | .attr v, s => attr v s
  | .pseudoClass v, s => pseudoClass v s
  | .pseudoElement v, s => pseudoElement v s

/-- Run a chain of fragment-appending calls; a throw aborts the chain, as
in JS. -/
def runCalls : List Call → BuilderState → Outcome
  | [], s => .ok s
  | c :: cs, s =>
    match step c s with
    | .ok s' => runCalls cs s'
    | e => e

/-- The rank of the fragment kind a call appends: its index in `weight`. -/
def rank : Call → Nat
  | .element _ => 0
  | .id _ => 1
  | .className _ => 2
  | .attr _ => 3
  | .pseudoClass _ => 4
  | .pseudoElement _ => 5

/-- Whether a call is an `element(...)` call. -/
def isElementCall : Call → Bool
  | .element _ => true
  | _ => false

/-! ## JSON helpers: `getJSON` and `fromJSON`

The source delegates to the host primitives: `getJSON(obj)` is
`JSON.stringify(obj)` and `fromJSON(proto, json)` is `JSON.parse(json)`
followed by `Object.setPrototypeOf(obj, proto)`.  `JSON.stringify` and
`JSON.parse` are platform functions, not code of this repository, so they
are modelled here for the JSON core: values are null, booleans, numbers,
strings, arrays, and objects with insertion-ordered members.  Numbers are
modelled as integers (host numbers are IEEE doubles; integral values
round-trip exactly through their decimal text).  Strings are serialized
with the two JSON escapes the printer needs, `\"` and `\\`; the `\uXXXX`
escapes the host emits for control characters are not modelled. -/

mutual
/-- Modelled from the spec: a "JSON-representable plain structured value"
(§8), the domain of the `getJSON`/`fromJSON` round trip. -/
inductive Json where
  | null : Json
  | bool (b : Bool) : Json
  | num (n : Int) : Json
  | str (s : String) : Json
  | arr (xs : JsonList) : Json
  | obj (ms : JsonMembers) : Json
/-- Array elements, in order. -/
inductive JsonList where
  | nil : JsonList
  | cons (hd : Json) (tl : JsonList) : JsonList
/-- Object members, in insertion order (the order `JSON.stringify` uses). -/
inductive JsonMembers where
  | nil : JsonMembers
  | cons (key : String) (val : Json) (tl : JsonMembers) : JsonMembers
end

/-- Decimal digits of a natural number, most significant first. -/
def natDigits (n : Nat) : List Char :=
  if n < 10 then [Nat.digitChar n]
  else natDigits (n / 10) ++ [Nat.digitChar (n % 10)]
termination_by n
decreasing_by exact Nat.div_lt_self (by omega) (by omega)

/-- Decimal text of an integer, with a leading minus for negatives. -/
def printInt : Int → List Char
  | .ofNat n => natDigits n
  | .negSucc n => '-' :: natDigits (n + 1)

/-- JSON string escaping of one character: `"` and `\` get a backslash. -/
def escapeChar (c : Char) : List Char :=
  if c = '"' ∨ c = '\\' then ['\\', c] else [c]

/-- JSON string escaping of a character list. -/
def escapeStr : List Char → List Char
  | [] => []
  | c :: cs => escapeChar c ++ escapeStr cs

mutual
/-- Modelled from the spec: `JSON.stringify` of a value — compact JSON
text, members in insertion order, no whitespace. -/
def printVal : Json → List Char
  | .null => "null".data
  | .bool true => "true".data
  | .bool false => "false".data
  | .num i => printInt i
  | .str s => '"' :: (escapeStr s.data ++ ['"'])
  | .arr .nil => ['[', ']']
  | .arr (.cons x xs) => '[' :: (printItems x xs ++ [']'])
  | .obj .nil => ['\x7b', '\x7d']
  | .obj (.cons k v ms) => '\x7b' :: (printMembers k v ms ++ ['\x7d'])
termination_by v => sizeOf v
decreasing_by all_goals (simp; try omega)
/-- Comma-separated array elements. -/
def printItems : Json → JsonList → List Char
  | x, .nil => printVal x
  | x, .cons y ys => printVal x ++ ',' :: printItems y ys
termination_by x xs => sizeOf x + sizeOf xs
decreasing_by all_goals (simp; try omega)
/-- Comma-separated `"key":value` members. -/
def printMembers : String → Json → JsonMembers → List Char
  | k, v, .nil => '"' :: (escapeStr k.data ++ ['"']) ++ ':' :: printVal v
  | k, v, .cons k2 v2 ms =>
    '"' :: (escapeStr k.data ++ ['"']) ++ ':' :: printVal v
      ++ ',' :: printMembers k2 v2 ms
termination_by _ v ms => sizeOf v + sizeOf ms
decreasing_by all_goals (simp; try omega)
end

/-- Read a decimal digit run, accumulating into `acc`; stops at the first
non-digit. -/
def readNat (acc : Nat) : List Char → Nat × List Char
  | [] => (acc, [])
  | c :: cs =>
    if c.isDigit then readNat (acc * 10 + (c.toNat - 48)) cs
    else (acc, c :: cs)

/-- Read the body of a JSON string up to the closing quote, undoing the
`\"` and `\\` escapes. -/
def parseStrChars : List Char → Option (List Char × List Char)
  | [] => none
  | c :: cs =>
    if c = '"' then some ([], cs)
    else if c = '\\' then
      match cs with
      | [] => none
      | d :: ds =>
        if d = '"' ∨ d = '\\' then
          match parseStrChars ds with
          | some (s, r) => some (d :: s, r)
          | none => none
        else none
    else
      match parseStrChars cs with
      | some (s, r) => some (c :: s, r)
      | none => none

mutual
/-- Modelled from the spec: `JSON.parse` of one value, fuelled (each step
of fuel admits one more nested parse step); returns the value and the
remaining input. -/
def parseVal : Nat → List Char → Option (Json × List Char)
  | 0, _ => none
  | fuel + 1, cs =>
    match cs with
    | [] => none
    | c :: r =>
      if c.isDigit then
        some (.num ((readNat 0 (c :: r)).1 : Int), (readNat 0 (c :: r)).2)
      else if c = '-' then
        match r with
        | c2 :: r2 =>
          if c2.isDigit then
            some (.num (-((readNat 0 (c2 :: r2)).1 : Int)),
                  (readNat 0 (c2 :: r2)).2)
          else none
        | [] => none
      else if c = 'n' then
        match r with
        | 'u' :: 'l' :: 'l' :: r2 => some (.null, r2)
        | _ => none
      else if c = 't' then
        match r with
        | 'r' :: 'u' :: 'e' :: r2 => some (.bool true, r2)
        | _ => none
      else if c = 'f' then
        match r with
        | 'a' :: 'l' :: 's' :: 'e' :: r2 => some (.bool false, r2)
        | _ => none
      else if c = '"' then
        match parseStrChars r with
        | some (s, r2) => some (.str ⟨s⟩, r2)
        | none => none
      else if c = '[' then
        if r.head? = some ']' then some (.arr .nil, r.tail)
        else
          match parseItems fuel r with
          | some (xs, r2) => some (.arr xs, r2)
          | none => none
      else if c = '\x7b' then
        if r.head? = some '\x7d' then some (.obj .nil, r.tail)
        else
          match parseMembers fuel r with
          | some (ms, r2) => some (.obj ms, r2)
          | none => none
      else none
/-- Parse one or more comma-separated array elements and the closing
bracket. -/
def parseItems : Nat → List Char → Option (JsonList × List Char)
  | 0, _ => none
  | fuel + 1, cs =>
    match parseVal fuel cs with
    | some (v, r) =>
      match r with
      | ',' :: r2 =>
        match parseItems fuel r2 with
        | some (vs, r3) => some (.cons v vs, r3)
        | none => none
      | ']' :: r2 => some (.cons v .nil, r2)
      | _ => none
    | none => none
/-- Parse one or more comma-separated `"key":value` members and the
closing brace. -/
def parseMembers : Nat → List Char → Option (JsonMembers × List Char)
  | 0, _ => none
  | fuel + 1, cs =>
    match cs with
    | '"' :: r =>
      match parseStrChars r with
      | some (k, r1) =>
        match r1 with
        | ':' :: r2 =>
          match parseVal fuel r2 with
          | some (v, r3) =>
            match r3 with
            | ',' :: r4 =>
              match parseMembers fuel r4 with
              | some (ms, r5) => some (.cons ⟨k⟩ v ms, r5)
              | none => none
            | '\x7d' :: r4 => some (.cons ⟨k⟩ v .nil, r4)
            | _ => none
          | none => none
        | _ => none
      | none => none
    | _ => none
end

/-- Whether the head of the remaining input is a decimal digit (number
parsing is greedy, so round-trip statements require a non-digit or empty
continuation). -/
def headNotDigit : List Char → Bool
  | [] => true
  | c :: _ => !c.isDigit

/-- `JSON.parse` of a whole text: one value, then end of input.  The fuel
`length + 1` dominates the nesting depth of any parse that succeeds. -/
def parseJson (text : String) : Option Json :=
  match parseVal (text.data.length + 1) text.data with
  | some (v, []) => some v
  | _ => none

/-- `getJSON(obj)`: `JSON.stringify` of the value (the prototype of the
argument plays no role in serialization). -/
def getJSON (v : Json) : String := ⟨printVal v⟩

/-- A parsed value with the prototype attached by `Object.setPrototypeOf`:
`fields` is the parsed data, `proto` identifies the attached prototype
(opaque to everything but identity). -/
structure JsValue where
  fields : Json
  proto : String

/-- `fromJSON(proto, json)`: `JSON.parse` the text, then attach the given
prototype; `none` models the propagated parse error on malformed text. -/
def fromJSON (proto : String) (json : String) : Option JsValue :=
  match parseJson json with
  | some d => some ⟨d, proto⟩
  | none => none

/-! ## Basic lemmas about the builder transitions -/

/-- A successful `inOrder` only appends the looked-up rank to `order`. -/
theorem inOrder_ok {el : String} {s s' : BuilderState}
    (h : inOrder el s = .ok s') :
    s' = { s with order := s.order ++ [weight.indexOf el] } := by
  unfold inOrder at h
  split at h
  · split at h
    · simp [error, clear] at h
    · exact (Outcome.ok.injEq _ _).mp h |>.symm
  · exact (Outcome.ok.injEq _ _).mp h |>.symm

/-- A failed `inOrder` raises the ordering message and leaves the initial
state behind. -/
theorem inOrder_err {el : String} {s : BuilderState} {m : String}
    {s' : BuilderState} (h : inOrder el s = .err m s') :
    m = orderMsg ∧ s' = initState := by
  unfold inOrder at h
  split at h
  · split at h
    · simp only [error, clear] at h
      exact ⟨((Outcome.err.injEq _ _ _ _).mp h).1.symm,
             ((Outcome.err.injEq _ _ _ _).mp h).2.symm⟩
    · simp at h
  · simp at h

/-- `inOrder` errors whenever the looked-up rank is below the last recorded
rank. -/
theorem inOrder_err_of_lt {el : String} {s : BuilderState} {last : Nat}
    (h : s.order.getLast? = some last) (hlt : weight.indexOf el < last) :
    inOrder el s = .err orderMsg initState := by
  unfold inOrder
  rw [h]
  simp [hlt, error, clear]

/-- Every fragment-appending error path goes through `error(...)`: the
message is one of the two source literals and the state is cleared. -/
theorem step_err_classified {c : Call} {s : BuilderState} {m : String}
    {s' : BuilderState} (h : step c s = .err m s') :
    (m = dupMsg ∨ m = orderMsg) ∧ s' = initState := by
  cases c <;>
    (simp only [step, element, id, className, attr, pseudoClass,
       pseudoElement] at h
     repeat
       first
       | split at h
       | (simp only [error, clear] at h
          obtain ⟨hm, hs⟩ := (Outcome.err.injEq _ _ _ _).mp h
          exact ⟨Or.inl hm.symm, hs.symm⟩)
       | injection h
       | (obtain ⟨hm2, hs2⟩ := inOrder_err h
          exact ⟨Or.inr hm2, hs2⟩))

/-- A successful `id` call leaves the `idCheck` flag set. -/
theorem id_ok_flag {v : String} {s s' : BuilderState}
    (h : id v s = .ok s') : s'.idCheck = true := by
  unfold id at h
  split at h
  · simp [error] at h
  · split at h
    · rename_i s2 heq
      obtain rfl := (Outcome.ok.injEq _ _).mp h
      rw [inOrder_ok heq]
    · rename_i o hno
      exact (hno s' h).elim

/-- A successful `pseudoElement` call leaves the `pseudoElementCheck` flag
set. -/
theorem pseudoElement_ok_flag {v : String} {s s' : BuilderState}
    (h : pseudoElement v s = .ok s') : s'.pseudoElementCheck = true := by
  unfold pseudoElement at h
  split at h
  · simp [error] at h
  · split at h
    · rename_i s2 heq
      obtain rfl := (Outcome.ok.injEq _ _).mp h
      rw [inOrder_ok heq]
    · rename_i o hno
      exact (hno s' h).elim

/-- `String.join` of a one-element list is that element. -/
theorem join_singleton (x : String) : String.join [x] = x := by
  cases x
  rfl

/-! ## Round-trip lemmas for the JSON model -/

/-- The ten digit characters are digits. -/
theorem digitChar_isDigit : ∀ m : Nat, m < 10 →
    (Nat.digitChar m).isDigit = true := by decide

/-- Reading back a digit character recovers its value. -/
theorem digitChar_toNat : ∀ m : Nat, m < 10 →
    (Nat.digitChar m).toNat - 48 = m := by decide

/-- `readNat` stops immediately on a non-digit head. -/
theorem readNat_stop (a : Nat) (cs : List Char)
    (h : headNotDigit cs = true) : readNat a cs = (a, cs) := by
  cases cs with
  | nil => rfl
  | cons c t =>
    simp only [headNotDigit, Bool.not_eq_true'] at h
    simp [readNat, h]

/-- Reading the digits of `n` shifts them into the accumulator. -/
theorem readNat_natDigits (n : Nat) : ∀ (a : Nat) (rest : List Char),
    readNat a (natDigits n ++ rest) =
      readNat (a * 10 ^ (natDigits n).length + n) rest := by
  induction n using Nat.strong_induction_on with
  | _ n ih =>
    intro a rest
    by_cases h : n < 10
    · rw [natDigits, if_pos h]
      simp only [List.cons_append, List.nil_append, List.length_cons,
        List.length_nil, pow_one]
      rw [readNat, if_pos (digitChar_isDigit n h), digitChar_toNat n h]
      norm_num
    · rw [natDigits, if_neg h]
      rw [List.append_assoc, ih (n / 10) (Nat.div_lt_self (by omega) (by omega))]
      simp only [List.cons_append, List.nil_append]
      rw [readNat, if_pos (digitChar_isDigit (n % 10) (Nat.mod_lt n (by omega))),
        digitChar_toNat (n % 10) (Nat.mod_lt n (by omega))]
      simp only [List.length_append, List.length_cons, List.length_nil]
      have harg : (a * 10 ^ (natDigits (n / 10)).length + n / 10) * 10 + n % 10
          = a * 10 ^ ((natDigits (n / 10)).length + (0 + 1)) + n := by
        have hdm : n / 10 * 10 + n % 10 = n := by omega
        rw [show (natDigits (n / 10)).length + (0 + 1)
            = (natDigits (n / 10)).length + 1 from by omega, pow_succ]
        calc (a * 10 ^ (natDigits (n / 10)).length + n / 10) * 10 + n % 10
            = a * (10 ^ (natDigits (n / 10)).length * 10)
              + (n / 10 * 10 + n % 10) := by ring
          _ = _ := by rw [hdm]
      rw [harg]

/-- `natDigits` is nonempty and starts with a digit character. -/
theorem natDigits_head (n : Nat) :
    ∃ c t, natDigits n = c :: t ∧ c.isDigit = true := by
  induction n using Nat.strong_induction_on with
  | _ n ih =>
    by_cases h : n < 10
    · exact ⟨Nat.digitChar n, [], by rw [natDigits, if_pos h],
        digitChar_isDigit n h⟩
    · obtain ⟨c, t, hct, hc⟩ := ih (n / 10) (Nat.div_lt_self (by omega) (by omega))
      exact ⟨c, t ++ [Nat.digitChar (n % 10)],
        by rw [natDigits, if_neg h, hct]; rfl, hc⟩

/-- Reading back the digit text of `n` before a non-digit continuation
yields `n` and the continuation. -/
theorem readNat_full (n : Nat) (rest : List Char)
    (h : headNotDigit rest = true) :
    readNat 0 (natDigits n ++ rest) = (n, rest) := by
  rw [readNat_natDigits]
  simp only [Nat.zero_mul, Nat.zero_add]
  exact readNat_stop n rest h

/-- Parsing an escaped string body followed by the closing quote recovers
the original characters and the continuation. -/
theorem parseStrChars_escape (s : List Char) : ∀ (rest : List Char),
    parseStrChars (escapeStr s ++ '"' :: rest) = some (s, rest) := by
  induction s with
  | nil =>
    intro rest
    show parseStrChars ('"' :: rest) = some ([], rest)
    rw [parseStrChars.eq_def]
    simp
  | cons c cs ih =>
    intro rest
    by_cases hc : c = '"' ∨ c = '\\'
    · have he : escapeStr (c :: cs) = '\\' :: c :: escapeStr cs := by
        simp [escapeStr, escapeChar, hc]
      rw [he, List.cons_append, List.cons_append]
      rw [parseStrChars.eq_def]
      simp [hc, ih rest]
    · push_neg at hc
      have he : escapeStr (c :: cs) = c :: escapeStr cs := by
        simp [escapeStr, escapeChar, hc.1, hc.2]
      rw [he, List.cons_append]
      rw [parseStrChars.eq_def]
      simp [hc.1, hc.2, ih rest]

/-- A digit character is neither a closing bracket nor a closing brace. -/
theorem isDigit_ne {c : Char} (h : c.isDigit = true) :
    c ≠ ']' ∧ c ≠ '\x7d' :=
  ⟨fun he => by rw [he] at h; exact absurd h (by decide),
   fun he => by rw [he] at h; exact absurd h (by decide)⟩

/-- `printVal` output is nonempty and never starts with a closing bracket
or brace. -/
theorem printVal_head (v : Json) :
    ∃ c t, printVal v = c :: t ∧ c ≠ ']' ∧ c ≠ '\x7d' := by
  cases v with
  | null =>
    exact ⟨'n', ['u', 'l', 'l'], by simp only [printVal],
      by decide, by decide⟩
  | bool b =>
    cases b with
    | false =>
      exact ⟨'f', ['a', 'l', 's', 'e'], by simp only [printVal],
        by decide, by decide⟩
    | true =>
      exact ⟨'t', ['r', 'u', 'e'], by simp only [printVal],
        by decide, by decide⟩
  | num i =>
    cases i with
    | ofNat n =>
      obtain ⟨c, t, hct, hc⟩ := natDigits_head n
      exact ⟨c, t, by simp [printVal, printInt, hct],
        (isDigit_ne hc).1, (isDigit_ne hc).2⟩
    | negSucc n =>
      exact ⟨'-', natDigits (n + 1), by simp [printVal, printInt],
        by decide, by decide⟩
  | str s =>
    exact ⟨'"', escapeStr s.data ++ ['"'], by simp [printVal],
      by decide, by decide⟩
  | arr xs =>
    cases xs with
    | nil => exact ⟨'[', [']'], by simp [printVal], by decide, by decide⟩
    | cons x xs2 =>
      exact ⟨'[', printItems x xs2 ++ [']'], by simp [printVal],
        by decide, by decide⟩
  | obj ms =>
    cases ms with
    | nil => exact ⟨'\x7b', ['\x7d'], by simp [printVal], by decide, by decide⟩
    | cons k v2 ms2 =>
      exact ⟨'\x7b', printMembers k v2 ms2 ++ ['\x7d'], by simp [printVal],
        by decide, by decide⟩

/-- `printItems` starts with the text of its first element. -/
theorem printItems_eq_append (x : Json) (xs : JsonList) :
    ∃ u, printItems x xs = printVal x ++ u := by
  cases xs with
  | nil => exact ⟨[], by simp [printItems]⟩
  | cons y ys => exact ⟨',' :: printItems y ys, by simp [printItems]⟩

/-- `printVal` output is nonempty. -/
theorem printVal_length_pos (v : Json) : 0 < (printVal v).length := by
  obtain ⟨c, t, hct, -, -⟩ := printVal_head v
  simp [hct]

/-- `parseVal` on a `null` literal. -/
theorem parseVal_null (fuel : Nat) (r : List Char) :
    parseVal (fuel + 1) ('n' :: 'u' :: 'l' :: 'l' :: r) = some (.null, r) := rfl

/-- `parseVal` on a `true` literal. -/
theorem parseVal_true (fuel : Nat) (r : List Char) :
    parseVal (fuel + 1) ('t' :: 'r' :: 'u' :: 'e' :: r) =
      some (.bool true, r) := rfl

/-- `parseVal` on a `false` literal. -/
theorem parseVal_false (fuel : Nat) (r : List Char) :
    parseVal (fuel + 1) ('f' :: 'a' :: 'l' :: 's' :: 'e' :: r) =
      some (.bool false, r) := rfl

/-- `parseVal` on an opening quote defers to `parseStrChars`. -/
theorem parseVal_quote (fuel : Nat) (r : List Char) :
    parseVal (fuel + 1) ('"' :: r) =
      (match parseStrChars r with
       | some (s, r2) => some (.str ⟨s⟩, r2)
       | none => none) := rfl

/-- `parseVal` on an opening bracket: empty array or `parseItems`. -/
theorem parseVal_lbrack (fuel : Nat) (r : List Char) :
    parseVal (fuel + 1) ('[' :: r) =
      (if r.head? = some ']' then some (.arr .nil, r.tail)
       else match parseItems fuel r with
            | some (xs, r2) => some (.arr xs, r2)
            | none => none) := rfl

/-- `parseVal` on an opening brace: empty object or `parseMembers`. -/
theorem parseVal_lbrace (fuel : Nat) (r : List Char) :
    parseVal (fuel + 1) ('\x7b' :: r) =
      (if r.head? = some '\x7d' then some (.obj .nil, r.tail)
       else match parseMembers fuel r with
            | some (ms, r2) => some (.obj ms, r2)
            | none => none) := rfl

/-- `parseVal` on a digit head reads a number. -/
theorem parseVal_digit (fuel : Nat) (c : Char) (r : List Char)
    (h : c.isDigit = true) :
    parseVal (fuel + 1) (c :: r) =
      some (.num ((readNat 0 (c :: r)).1 : Int), (readNat 0 (c :: r)).2) := by
  simp [parseVal, h]

/-- `parseVal` on a minus sign followed by a digit reads a negative
number. -/
theorem parseVal_minus (fuel : Nat) (c : Char) (r : List Char)
    (h : c.isDigit = true) :
    parseVal (fuel + 1) ('-' :: c :: r) =
      some (.num (-((readNat 0 (c :: r)).1 : Int)), (readNat 0 (c :: r)).2) := by
  simp [parseVal, h]

/-- `printMembers` starts with an opening quote. -/
theorem printMembers_head (k : String) (v : Json) (ms : JsonMembers) :
    ∃ u, printMembers k v ms = '"' :: u := by
  cases ms with
  | nil =>
    exact ⟨(escapeStr k.data ++ ['"']) ++ ':' :: printVal v,
      by simp [printMembers]⟩
  | cons k2 v2 ms2 =>
    exact ⟨(escapeStr k.data ++ ['"']) ++ ':' :: printVal v
        ++ ',' :: printMembers k2 v2 ms2,
      by simp [printMembers]⟩

mutual
/-- Parsing the printed text of a value before a non-digit continuation
recovers the value, given enough fuel. -/
theorem parseVal_printVal : ∀ (v : Json) (fuel : Nat) (rest : List Char),
    (printVal v).length < fuel → headNotDigit rest = true →
    parseVal fuel (printVal v ++ rest) = some (v, rest)
  | .null, fuel, rest, hf, _ => by
    obtain ⟨f, rfl⟩ : ∃ f, fuel = f + 1 := ⟨fuel - 1, by omega⟩
    rw [show printVal Json.null = ['n', 'u', 'l', 'l'] from by
      simp only [printVal]]
    exact parseVal_null f rest
  | .bool true, fuel, rest, hf, _ => by
    obtain ⟨f, rfl⟩ : ∃ f, fuel = f + 1 := ⟨fuel - 1, by omega⟩
    rw [show printVal (Json.bool true) = ['t', 'r', 'u', 'e'] from by
      simp only [printVal]]
    exact parseVal_true f rest
  | .bool false, fuel, rest, hf, _ => by
    obtain ⟨f, rfl⟩ : ∃ f, fuel = f + 1 := ⟨fuel - 1, by omega⟩
    rw [show printVal (Json.bool false) = ['f', 'a', 'l', 's', 'e'] from by
      simp only [printVal]]
    exact parseVal_false f rest
  | .num (.ofNat n), fuel, rest, hf, hr => by
    obtain ⟨f, rfl⟩ : ∃ f, fuel = f + 1 := ⟨fuel - 1, by omega⟩
    obtain ⟨c, t, hct, hcd⟩ := natDigits_head n
    rw [show printVal (Json.num (.ofNat n)) = natDigits n from by
      simp [printVal, printInt]]
    rw [hct, List.cons_append, parseVal_digit f c (t ++ rest) hcd]
    rw [show c :: (t ++ rest) = natDigits n ++ rest from by
      rw [hct, List.cons_append]]
    rw [readNat_full n rest hr]
    rfl
  | .num (.negSucc n), fuel, rest, hf, hr => by
    obtain ⟨f, rfl⟩ : ∃ f, fuel = f + 1 := ⟨fuel - 1, by omega⟩
    obtain ⟨c, t, hct, hcd⟩ := natDigits_head (n + 1)
    rw [show printVal (Json.num (.negSucc n)) = '-' :: natDigits (n + 1) from by
      simp [printVal, printInt]]
    rw [hct, List.cons_append, List.cons_append,
      parseVal_minus f c (t ++ rest) hcd]
    rw [show c :: (t ++ rest) = natDigits (n + 1) ++ rest from by
      rw [hct, List.cons_append]]
    rw [readNat_full (n + 1) rest hr]
    simp [Int.negSucc_eq]
  | .str s, fuel, rest, hf, _ => by
    obtain ⟨f, rfl⟩ : ∃ f, fuel = f + 1 := ⟨fuel - 1, by omega⟩
    obtain ⟨sd⟩ := s
    rw [show printVal (Json.str ⟨sd⟩)
        = '"' :: (escapeStr sd ++ ['"']) from by simp [printVal]]
    rw [List.cons_append, List.append_assoc]
    rw [show (['"'] : List Char) ++ rest = '"' :: rest from rfl]
    rw [parseVal_quote, parseStrChars_escape sd rest]
  | .arr .nil, fuel, rest, hf, _ => by
    obtain ⟨f, rfl⟩ : ∃ f, fuel = f + 1 := ⟨fuel - 1, by omega⟩
    rw [show printVal (Json.arr .nil) = ['[', ']'] from by simp [printVal]]
    rw [show (['[', ']'] : List Char) ++ rest = '[' :: ']' :: rest from rfl]
    rw [parseVal_lbrack]
    simp
  | .arr (.cons x xs), fuel, rest, hf, _ => by
    obtain ⟨f, rfl⟩ : ∃ f, fuel = f + 1 := ⟨fuel - 1, by omega⟩
    rw [show printVal (Json.arr (.cons x xs))
        = '[' :: (printItems x xs ++ [']']) from by simp [printVal]] at hf ⊢
    have hlen : (printItems x xs).length + 1 < f := by
      simp only [List.length_cons, List.length_append, List.length_nil] at hf
      omega
    rw [List.cons_append, List.append_assoc]
    rw [show ([']'] : List Char) ++ rest = ']' :: rest from rfl]
    rw [parseVal_lbrack]
    obtain ⟨u, hu⟩ := printItems_eq_append x xs
    obtain ⟨c, t, hct, hne1, _⟩ := printVal_head x
    rw [if_neg (by rw [hu, hct]; simp [hne1])]
    rw [parseItems_printItems x xs f rest hlen]
  | .obj .nil, fuel, rest, hf, _ => by
    obtain ⟨f, rfl⟩ : ∃ f, fuel = f + 1 := ⟨fuel - 1, by omega⟩
    rw [show printVal (Json.obj .nil) = ['\x7b', '\x7d'] from by
      simp [printVal]]
    rw [show (['\x7b', '\x7d'] : List Char) ++ rest = '\x7b' :: '\x7d' :: rest
      from rfl]
    rw [parseVal_lbrace]
    simp
  | .obj (.cons k v ms), fuel, rest, hf, _ => by
    obtain ⟨f, rfl⟩ : ∃ f, fuel = f + 1 := ⟨fuel - 1, by omega⟩
    rw [show printVal (Json.obj (.cons k v ms))
        = '\x7b' :: (printMembers k v ms ++ ['\x7d']) from by
      simp [printVal]] at hf ⊢
    have hlen : (printMembers k v ms).length + 1 < f := by
      simp only [List.length_cons, List.length_append, List.length_nil] at hf
      omega
    rw [List.cons_append, List.append_assoc]
    rw [show (['\x7d'] : List Char) ++ rest = '\x7d' :: rest from rfl]
    rw [parseVal_lbrace]
    obtain ⟨u, hu⟩ := printMembers_head k v ms
    rw [if_neg (by rw [hu]; simp)]
    rw [parseMembers_printMembers k v ms f rest hlen]
termination_by v _ _ _ _ => sizeOf v
decreasing_by all_goals (simp; try omega)

/-- Parsing the printed text of a nonempty element list followed by the
closing bracket recovers the elements, given enough fuel. -/
theorem parseItems_printItems : ∀ (x : Json) (xs : JsonList) (fuel : Nat)
    (rest : List Char), (printItems x xs).length + 1 < fuel →
    parseItems fuel (printItems x xs ++ ']' :: rest) =
      some (.cons x xs, rest)
  | x, .nil, fuel, rest, hf => by
    obtain ⟨f, rfl⟩ : ∃ f, fuel = f + 1 := ⟨fuel - 1, by omega⟩
    rw [show printItems x .nil = printVal x from by simp [printItems]] at hf ⊢
    have hx : parseVal f (printVal x ++ ']' :: rest) = some (x, ']' :: rest) :=
      parseVal_printVal x f (']' :: rest) (by omega) (by rfl)
    simp only [parseItems]
    rw [hx]
    rfl
  | x, .cons y ys, fuel, rest, hf => by
    obtain ⟨f, rfl⟩ : ∃ f, fuel = f + 1 := ⟨fuel - 1, by omega⟩
    rw [show printItems x (.cons y ys)
        = printVal x ++ ',' :: printItems y ys from by simp [printItems]]
      at hf ⊢
    have hlx : (printVal x).length < f := by
      simp only [List.length_append, List.length_cons] at hf
      omega
    have hly : (printItems y ys).length + 1 < f := by
      have := printVal_length_pos x
      simp only [List.length_append, List.length_cons] at hf
      omega
    rw [List.append_assoc, List.cons_append]
    have hx : parseVal f
        (printVal x ++ ',' :: (printItems y ys ++ ']' :: rest)) =
        some (x, ',' :: (printItems y ys ++ ']' :: rest)) :=
      parseVal_printVal x f _ hlx (by rfl)
    simp only [parseItems]
    rw [hx]
    show (match parseItems f (printItems y ys ++ ']' :: rest) with
          | some (vs, r3) => some (JsonList.cons x vs, r3)
          | none => none) = some (.cons x (.cons y ys), rest)
    rw [parseItems_printItems y ys f rest hly]
termination_by x xs _ _ _ => sizeOf x + sizeOf xs
decreasing_by all_goals (simp; try omega)

/-- Parsing the printed text of a nonempty member list followed by the
closing brace recovers the members, given enough fuel. -/
theorem parseMembers_printMembers : ∀ (k : String) (v : Json)
    (ms : JsonMembers) (fuel : Nat) (rest : List Char),
    (printMembers k v ms).length + 1 < fuel →
    parseMembers fuel (printMembers k v ms ++ '\x7d' :: rest) =
      some (.cons k v ms, rest)
  | k, v, .nil, fuel, rest, hf => by
    obtain ⟨f, rfl⟩ : ∃ f, fuel = f + 1 := ⟨fuel - 1, by omega⟩
    obtain ⟨kd⟩ := k
    rw [show printMembers ⟨kd⟩ v .nil
        = '"' :: ((escapeStr kd ++ ['"']) ++ ':' :: printVal v) from by
      simp [printMembers]] at hf ⊢
    have hlv : (printVal v).length < f := by
      simp only [List.length_cons, List.length_append, List.length_nil] at hf
      omega
    rw [List.cons_append, List.append_assoc, List.append_assoc]
    simp only [parseMembers]
    rw [show (['"'] : List Char) ++ (':' :: printVal v ++ '\x7d' :: rest)
        = '"' :: (':' :: (printVal v ++ '\x7d' :: rest)) from by simp]
    rw [parseStrChars_escape kd (':' :: (printVal v ++ '\x7d' :: rest))]
    have hv : parseVal f (printVal v ++ '\x7d' :: rest) =
        some (v, '\x7d' :: rest) :=
      parseVal_printVal v f _ hlv (by rfl)
    show (match parseVal f (printVal v ++ '\x7d' :: rest) with
          | some (w, r3) =>
            match r3 with
            | ',' :: r4 =>
              (match parseMembers f r4 with
               | some (ms2, r5) => some (JsonMembers.cons ⟨kd⟩ w ms2, r5)
               | none => none)
            | '\x7d' :: r4 => some (JsonMembers.cons ⟨kd⟩ w .nil, r4)
            | _ => none
          | none => none) = some (.cons ⟨kd⟩ v .nil, rest)
    rw [hv]
    rfl
  | k, v, .cons k2 v2 ms2, fuel, rest, hf => by
    obtain ⟨f, rfl⟩ : ∃ f, fuel = f + 1 := ⟨fuel - 1, by omega⟩
    obtain ⟨kd⟩ := k
    rw [show printMembers ⟨kd⟩ v (.cons k2 v2 ms2)
        = '"' :: ((escapeStr kd ++ ['"']) ++ ':' :: printVal v
            ++ ',' :: printMembers k2 v2 ms2) from by
      simp [printMembers]] at hf ⊢
    have hlv : (printVal v).length < f := by
      simp only [List.length_cons, List.length_append, List.length_nil] at hf
      omega
    have hlm : (printMembers k2 v2 ms2).length + 1 < f := by
      have := printVal_length_pos v
      simp only [List.length_cons, List.length_append, List.length_nil] at hf
      omega
    rw [List.cons_append]
    simp only [parseMembers]
    rw [show ((escapeStr kd ++ ['"']) ++ ':' :: printVal v
          ++ ',' :: printMembers k2 v2 ms2) ++ '\x7d' :: rest
        = escapeStr kd ++ '"' :: (':' :: (printVal v
            ++ ',' :: (printMembers k2 v2 ms2 ++ '\x7d' :: rest))) from by
      simp]
    rw [parseStrChars_escape kd]
    have hv : parseVal f
        (printVal v ++ ',' :: (printMembers k2 v2 ms2 ++ '\x7d' :: rest)) =
        some (v, ',' :: (printMembers k2 v2 ms2 ++ '\x7d' :: rest)) :=
      parseVal_printVal v f _ hlv (by rfl)
    show (match parseVal f (printVal v
            ++ ',' :: (printMembers k2 v2 ms2 ++ '\x7d' :: rest)) with
          | some (w, r3) =>
            match r3 with
            | ',' :: r4 =>
              (match parseMembers f r4 with
               | some (ms3, r5) => some (JsonMembers.cons ⟨kd⟩ w ms3, r5)
               | none => none)
            | '\x7d' :: r4 => some (JsonMembers.cons ⟨kd⟩ w .nil, r4)
            | _ => none
          | none => none) = some (.cons ⟨kd⟩ v (.cons k2 v2 ms2), rest)
    rw [hv]
    show (match parseMembers f (printMembers k2 v2 ms2 ++ '\x7d' :: rest) with
          | some (ms3, r5) => some (JsonMembers.cons ⟨kd⟩ v ms3, r5)
          | none => none) = some (.cons ⟨kd⟩ v (.cons k2 v2 ms2), rest)
    rw [parseMembers_printMembers k2 v2 ms2 f rest hlm]
termination_by _ v ms _ _ _ => sizeOf v + sizeOf ms
decreasing_by all_goals (simp; try omega)
end

/-! ## Claim theorems -/

/-- C7: fragment texts are rendered with the kind-specific prefixes and
concatenated in insertion order with no separators:
`id('main').class('a').class('b').stringify()` is `#main.a.b`, and
`element('a').attr('href$=".png"').pseudoClass('focus').stringify()` is
`a[href$=".png"]:focus`. -/
theorem render_prefix_examples :
    runCalls [.id "main", .className "a", .className "b"] initState =
      .ok ⟨true, false, [1, 2, 2], [], ["#main", ".a", ".b"]⟩ ∧
    (stringify ⟨true, false, [1, 2, 2], [], ["#main", ".a", ".b"]⟩).1 =
      "#main.a.b" ∧
    runCalls [.element "a", .attr "href$=\".png\"", .pseudoClass "focus"]
        initState =
      .ok ⟨false, false, [0, 3, 4], [], ["a", "[href$=\".png\"]", ":focus"]⟩ ∧
    (stringify ⟨false, false, [0, 3, 4], [],
        ["a", "[href$=\".png\"]", ":focus"]⟩).1 = "a[href$=\".png\"]:focus" := by
  refine ⟨by decide, by decide, by decide, by decide⟩

/-- C5: `stringify()` on the empty builder returns the empty string; on any
builder it returns the concatenation of the accumulated fragment texts and
resets the state, so an immediately following `stringify()` returns the
empty string. -/
theorem stringify_empty_and_destructive :
    (stringify initState).1 = "" ∧
    ∀ s : BuilderState,
      (stringify s).1 = String.join s.build ∧
      (stringify s).2 = initState ∧
      (stringify ((stringify s).2)).1 = "" :=
  ⟨rfl, fun _ => ⟨rfl, rfl, rfl⟩⟩

/-- C4: whenever a fragment-appending operation throws, the state it leaves
behind is the initial (empty) state: `error(msg)` calls `clear()` before
throwing. -/
theorem fragment_error_clears_state :
    ∀ (c : Call) (s : BuilderState) (m : String) (s' : BuilderState),
      step c s = .err m s' → s' = initState :=
  fun _ _ _ _ h => (step_err_classified h).2

/-- Witness for C4: `class('x')` then `id('y')` throws and leaves the empty
state. -/
theorem fragment_error_clears_state_witness :
    step (.id "y") ⟨false, false, [2], [], [".x"]⟩ = .err orderMsg initState ∧
    initState = initState :=
  ⟨by decide,
   fragment_error_clears_state (.id "y") ⟨false, false, [2], [], [".x"]⟩
     orderMsg initState (by decide)⟩

/-- C10: after any `stringify()` call or any thrown builder error, every
mutable field — fragment list `build`, stashed-segment stack `combo`, rank
sequence `order`, and both uniqueness flags — is back to its initial empty
value; in particular `stringify` also discards pending stashed segments. -/
theorem reset_after_stringify_or_error :
    (∀ s : BuilderState,
       (stringify s).2.build = [] ∧ (stringify s).2.combo = [] ∧
       (stringify s).2.order = [] ∧ (stringify s).2.idCheck = false ∧
       (stringify s).2.pseudoElementCheck = false) ∧
    (∀ (c : Call) (s : BuilderState) (m : String) (s' : BuilderState),
       step c s = .err m s' →
       s'.build = [] ∧ s'.combo = [] ∧ s'.order = [] ∧
       s'.idCheck = false ∧ s'.pseudoElementCheck = false) := by
  refine ⟨fun s => ⟨rfl, rfl, rfl, rfl, rfl⟩, fun c s m s' h => ?_⟩
  have h2 := (step_err_classified h).2
  subst h2
  exact ⟨rfl, rfl, rfl, rfl, rfl⟩

/-- Witness for C10: a duplicate `element` call throws and every field of
the left-behind state is empty. -/
theorem reset_after_stringify_or_error_witness :
    initState.build = [] ∧ initState.combo = [] ∧ initState.order = [] ∧
    initState.idCheck = false ∧ initState.pseudoElementCheck = false :=
  reset_after_stringify_or_error.2 (.element "b")
    ⟨false, false, [0], [], ["a"]⟩ dupMsg initState (by decide)

/-- C2: on every builder holding an id fragment of the current simple
selector (the `idCheck` flag is set — it is set by `id`, survives every
later non-clearing call, and is only reset when the fragment leaves the
simple selector via a stash or a clear), a further `id` call throws, and
likewise for `pseudoElement` with `pseudoElementCheck`; in particular a
successful `id`/`pseudoElement` call leaves the flag set, so a repeat
throws. -/
theorem second_id_or_pseudoElement_errs :
    (∀ (s : BuilderState) (w : String), s.idCheck = true →
       id w s = .err dupMsg initState) ∧
    (∀ (s : BuilderState) (w : String), s.pseudoElementCheck = true →
       pseudoElement w s = .err dupMsg initState) ∧
    (∀ (s s' : BuilderState) (v w : String),
       id v s = .ok s' → ∃ m s'', id w s' = .err m s'') ∧
    (∀ (s s' : BuilderState) (v w : String),
       pseudoElement v s = .ok s' → ∃ m s'', pseudoElement w s' = .err m s'') := by
  refine ⟨fun s w h => ?_, fun s w h => ?_, fun s s' v w h => ?_,
    fun s s' v w h => ?_⟩
  · unfold id
    rw [h]
    rfl
  · unfold pseudoElement
    rw [h]
    rfl
  · have hid := id_ok_flag h
    refine ⟨dupMsg, clear s', ?_⟩
    unfold id
    rw [hid]
    rfl
  · have hpe := pseudoElement_ok_flag h
    refine ⟨dupMsg, clear s', ?_⟩
    unfold pseudoElement
    rw [hpe]
    rfl

/-- Witness for C2: after `id('x').class('a')` — a builder that holds an
id fragment but whose last call was not `id` — a second `id` call throws;
and after a bare `id('x')` a second `id` call throws. -/
theorem second_id_or_pseudoElement_errs_witness :
    id "y" ⟨true, false, [1, 2], [], ["#x", ".a"]⟩ = .err dupMsg initState ∧
    (∃ m s'', id "z" ⟨true, false, [1], [], ["#x"]⟩ = .err m s'') :=
  ⟨second_id_or_pseudoElement_errs.1 ⟨true, false, [1, 2], [], ["#x", ".a"]⟩
     "y" (by decide),
   second_id_or_pseudoElement_errs.2.2.1 initState
     ⟨true, false, [1], [], ["#x"]⟩ "x" "z" (by decide)⟩

/-- C8 counterexample: the builder's error messages are the source's two
sentences, not the category names the claim requires; in particular the
ordering error raised by `class('x').id('y')` is not the string
"out-of-order fragment", and the duplicate error raised by
`id('x').id('y')` is not the string "duplicate exclusive fragment". -/
theorem error_message_not_category_name :
    runCalls [.className "x", .id "y"] initState = .err orderMsg initState ∧
    orderMsg ≠ "out-of-order fragment" ∧
    orderMsg ≠ "duplicate exclusive fragment" ∧
    runCalls [.id "x", .id "y"] initState = .err dupMsg initState ∧
    dupMsg ≠ "duplicate exclusive fragment" ∧
    dupMsg ≠ "out-of-order fragment" := by
  refine ⟨by decide, by decide, by decide, by decide, by decide, by decide⟩

/-- C8 amended: every error thrown by a fragment-appending call carries one
of the two verbatim source messages — the duplicate sentence for uniqueness
violations (e.g. `id('x').id('y')`) and the ordering sentence for
out-of-order fragments (e.g. `class('x').id('y')`). -/
theorem error_message_verbatim :
    (∀ (c : Call) (s : BuilderState) (m : String) (s' : BuilderState),
       step c s = .err m s' → m = dupMsg ∨ m = orderMsg) ∧
    runCalls [.className "x", .id "y"] initState = .err orderMsg initState ∧
    runCalls [.id "x", .id "y"] initState = .err dupMsg initState :=
  ⟨fun _ _ _ _ h => (step_err_classified h).1, by decide, by decide⟩

/-- Witness for C8 amended: a duplicate `pseudoElement` call throws one of
the two source messages. -/
theorem error_message_verbatim_witness :
    dupMsg = dupMsg ∨ dupMsg = orderMsg :=
  error_message_verbatim.1 (.pseudoElement "r") ⟨false, true, [5], [], ["::q"]⟩
    dupMsg initState (by decide)

/-- C1 counterexample: after `class('a').class('b')` the most recently
accepted fragment has rank 2, yet `element('c')` — rank 0, strictly lower —
is accepted (the source stashes the two fragments and starts a new segment)
instead of raising an error. -/
theorem element_lower_rank_ok :
    runCalls [.className "a", .className "b"] initState =
      .ok ⟨false, false, [2, 2], [], [".a", ".b"]⟩ ∧
    (BuilderState.mk false false [2, 2] [] [".a", ".b"]).order.getLast? =
      some 2 ∧
    rank (.element "c") = 0 ∧
    step (.element "c") ⟨false, false, [2, 2], [], [".a", ".b"]⟩ =
      .ok ⟨false, false, [0], [".a.b"], ["c"]⟩ := by
  refine ⟨by decide, by decide, by decide, by decide⟩

/-- C1 amended: the non-`element` fragment calls (`id`, `class`, `attr`,
`pseudoClass`, `pseudoElement`) throw whenever their rank is lower than the
last recorded rank — in particular `class('x').id('y')` throws; `element`
escapes the rule when two or more fragments are present (it stashes them,
see the counterexample) and throws the duplicate error when exactly one
is. -/
theorem lower_rank_err_nonelement :
    (∀ (c : Call) (s : BuilderState) (last : Nat),
       isElementCall c = false → s.order.getLast? = some last →
       rank c < last → ∃ m s', step c s = .err m s') ∧
    runCalls [.className "x", .id "y"] initState = .err orderMsg initState := by
  refine ⟨?_, by decide⟩
  intro c s last hel hlast hlt
  cases c with
  | element v => simp [isElementCall] at hel
  | id v =>
    by_cases hf : s.idCheck
    · exact ⟨dupMsg, clear s, by simp only [step]; unfold id; rw [hf]; rfl⟩
    · refine ⟨orderMsg, initState, ?_⟩
      simp only [step, id, hf, if_false, Bool.false_eq_true]
      rw [inOrder_err_of_lt (s := { s with idCheck := true }) hlast
        (by simpa [rank] using hlt)]
  | className v =>
    refine ⟨orderMsg, initState, ?_⟩
    simp only [step, className]
    rw [inOrder_err_of_lt hlast (by simpa [rank] using hlt)]
  | attr v =>
    refine ⟨orderMsg, initState, ?_⟩
    simp only [step, attr]
    rw [inOrder_err_of_lt hlast (by simpa [rank] using hlt)]
  | pseudoClass v =>
    refine ⟨orderMsg, initState, ?_⟩
    simp only [step, pseudoClass]
    rw [inOrder_err_of_lt hlast (by simpa [rank] using hlt)]
  | pseudoElement v =>
    by_cases hf : s.pseudoElementCheck
    · exact ⟨dupMsg, clear s, by simp only [step]; unfold pseudoElement; rw [hf]; rfl⟩
    · refine ⟨orderMsg, initState, ?_⟩
      simp only [step, pseudoElement, hf, if_false, Bool.false_eq_true]
      rw [inOrder_err_of_lt (s := { s with pseudoElementCheck := true }) hlast
        (by simpa [rank] using hlt)]

/-- Witness for C1 amended: a `pseudoClass` call of rank 4 after a recorded
rank 5 throws. -/
theorem lower_rank_err_nonelement_witness :
    ∃ m s', step (.pseudoClass "p") ⟨false, false, [5], [], ["::q"]⟩ =
      .err m s' :=
  lower_rank_err_nonelement.1 (.pseudoClass "p")
    ⟨false, false, [5], [], ["::q"]⟩ 5 (by decide) (by decide) (by decide)

/-- A successful fragment-appending call preserves the invariant that
`order` and `build` have the same length (each accepted fragment records
exactly one rank and one text). -/
theorem step_ok_lengths {c : Call} {s s' : BuilderState}
    (h : step c s = .ok s') (hlen : s.order.length = s.build.length) :
    s'.order.length = s'.build.length := by
  cases c with
  | element v =>
    simp only [step, element] at h
    split at h
    · split at h
      · simp [error] at h
      · split at h
        · rename_i s2 heq
          obtain rfl := (Outcome.ok.injEq _ _).mp h
          obtain rfl := inOrder_ok heq
          simp
        · rename_i o hno
          exact (hno s' h).elim
    · split at h
      · rename_i s2 heq
        obtain rfl := (Outcome.ok.injEq _ _).mp h
        obtain rfl := inOrder_ok heq
        simp [hlen]
      · rename_i o hno
        exact (hno s' h).elim
  | id v =>
    simp only [step, id] at h
    split at h
    · simp [error] at h
    · split at h
      · rename_i s2 heq
        obtain rfl := (Outcome.ok.injEq _ _).mp h
        obtain rfl := inOrder_ok heq
        simp [hlen]
      · rename_i o hno
        exact (hno s' h).elim
  | className v =>
    simp only [step, className] at h
    split at h
    · rename_i s2 heq
      obtain rfl := (Outcome.ok.injEq _ _).mp h
      obtain rfl := inOrder_ok heq
      simp [hlen]
    · rename_i o hno
      exact (hno s' h).elim
  | attr v =>
    simp only [step, attr] at h
    split at h
    · rename_i s2 heq
      obtain rfl := (Outcome.ok.injEq _ _).mp h
      obtain rfl := inOrder_ok heq
      simp [hlen]
    · rename_i o hno
      exact (hno s' h).elim
  | pseudoClass v =>
    simp only [step, pseudoClass] at h
    split at h
    · rename_i s2 heq
      obtain rfl := (Outcome.ok.injEq _ _).mp h
      obtain rfl := inOrder_ok heq
      simp [hlen]
    · rename_i o hno
      exact (hno s' h).elim
  | pseudoElement v =>
    simp only [step, pseudoElement] at h
    split at h
    · simp [error] at h
    · split at h
      · rename_i s2 heq
        obtain rfl := (Outcome.ok.injEq _ _).mp h
        obtain rfl := inOrder_ok heq
        simp [hlen]
      · rename_i o hno
        exact (hno s' h).elim

/-- C3 counterexample: a builder whose current simple selector already
contains an element fragment (rank 0 is recorded) accepts a further
`element` call instead of raising: after `element('a').id('b')` the call
`element('c')` succeeds, stashing `a#b`. -/
theorem element_after_element_ok :
    runCalls [.element "a", .id "b"] initState =
      .ok ⟨true, false, [0, 1], [], ["a", "#b"]⟩ ∧
    (0 : Nat) ∈ (BuilderState.mk true false [0, 1] [] ["a", "#b"]).order ∧
    step (.element "c") ⟨true, false, [0, 1], [], ["a", "#b"]⟩ =
      .ok ⟨false, false, [0], ["a#b"], ["c"]⟩ := by
  refine ⟨by decide, by decide, by decide⟩

/-- C3 amended: in every state reachable by a chain of calls, `order` and
`build` have equal length, and under that invariant `element(name)` throws
exactly when the fragment list holds exactly one fragment; it succeeds on
an empty fragment list and, with two or more fragments, stashes them and
succeeds. -/
theorem element_err_iff_single_fragment :
    (∀ (cs : List Call) (s : BuilderState),
       runCalls cs initState = .ok s → s.order.length = s.build.length) ∧
    (∀ (v : String) (s : BuilderState), s.order.length = s.build.length →
       ((∃ m s', element v s = .err m s') ↔ s.build.length = 1)) := by
  constructor
  · have inv : ∀ (cs : List Call) (s0 s : BuilderState),
        s0.order.length = s0.build.length →
        runCalls cs s0 = .ok s → s.order.length = s.build.length := by
      intro cs
      induction cs with
      | nil =>
        intro s0 s h0 h
        obtain rfl := (Outcome.ok.injEq _ _).mp h
        exact h0
      | cons c cs ih =>
        intro s0 s h0 h
        simp only [runCalls] at h
        split at h
        · rename_i s1 heq
          exact ih s1 s (step_ok_lengths heq h0) h
        · rename_i o hno
          exact (hno s h).elim
    exact fun cs s h => inv cs initState s rfl h
  · intro v s hlen
    constructor
    · rintro ⟨m, s', h⟩
      simp only [element] at h
      split at h
      · split at h
        · omega
        · split at h
          · injection h
          · rename_i heq
            unfold inOrder at heq
            simp at heq
      · rename_i hpos
        have hord : s.order = [] :=
          List.eq_nil_of_length_eq_zero (by omega)
        split at h
        · injection h
        · rename_i heq
          unfold inOrder at heq
          rw [hord] at heq
          simp at heq
    · intro h1
      refine ⟨dupMsg, clear s, ?_⟩
      unfold element
      simp [h1, error]

/-- Witness for C3 amended: on a builder holding exactly one fragment,
`element` throws. -/
theorem element_err_iff_single_fragment_witness :
    ∃ m s', element "e" ⟨false, false, [2], [], [".x"]⟩ = .err m s' :=
  (element_err_iff_single_fragment.2 "e" ⟨false, false, [2], [], [".x"]⟩
    (by decide)).mpr (by decide)

/-- C6: `combine` accepts any combinator token verbatim, never throws, and
the combined result stringifies to the stashed left selector string, a
single space, the combinator, a single space, and the right selector's
joined fragments. -/
theorem combine_single_space_format :
    (∀ (comb : String) (s : BuilderState), ∃ s', combine comb s = .ok s') ∧
    (∀ (comb lstr : String) (s : BuilderState),
       s.combo.getLast? = some lstr →
       ∃ s', combine comb s = .ok s' ∧
         (stringify s').1 = lstr ++ " " ++ comb ++ " " ++ String.join s.build) := by
  constructor
  · intro comb s
    exact ⟨_, rfl⟩
  · intro comb lstr s h
    refine ⟨_, rfl, ?_⟩
    simp only [stringify, combine, h, Option.getD_some]
    exact join_singleton _

/-- C9: for every JSON-representable plain structured value `v` and every
prototype `proto`, `fromJSON(proto, getJSON(v))` parses back exactly the
data fields of `v` (field for field) and attaches the prototype. -/
theorem fromJSON_getJSON_roundtrip :
    ∀ (proto : String) (v : Json),
      fromJSON proto (getJSON v) = some ⟨v, proto⟩ := by
  intro proto v
  have h := parseVal_printVal v ((printVal v).length + 1) [] (by omega) (by rfl)
  rw [List.append_nil] at h
  have hp : parseJson ⟨printVal v⟩ = some v := by
    unfold parseJson
    show (match parseVal ((printVal v).length + 1) (printVal v) with
          | some (w, []) => some w
          | _ => none) = some v
    rw [h]
  unfold fromJSON getJSON
  rw [hp]

/-- Witness for C6: combining with the nonstandard token `@@` still yields
the single-space format. -/
theorem combine_single_space_format_witness :
    ∃ s', combine "@@" ⟨false, false, [0, 1], ["div#main"], ["p"]⟩ = .ok s' ∧
      (stringify s').1 = "div#main" ++ " " ++ "@@" ++ " " ++
        String.join ["p"] :=
  combine_single_space_format.2 "@@" "div#main"
    ⟨false, false, [0, 1], ["div#main"], ["p"]⟩ (by decide)

end ObjectsTasks
